import Mathlib

/-!
Verification development for the `bon-calculadora-mcp-rs` repository
(`src/common/calculadora.rs`).  The Rust code is shallowly embedded over
`List Char`: `str::find`, `str::contains`, `str::split(',')` become the
executable functions `findSub`, `containsSub`, `splitOnChar` below, and
`serde_json::from_str` is modelled by an executable JSON parser
(`json_from_str`) followed by struct decoders that mirror `serde_derive`
semantics (unknown fields ignored, duplicate fields rejected, required
fields erroring when missing, `#[serde(default)]` fields defaulting).
-/

set_option maxRecDepth 100000

deriving instance DecidableEq for Except

namespace Calculadora

abbrev Chars := List Char

/-- Boolean test that `pat` is a prefix of `text` (model of Rust
`str::starts_with`, used to specify `str::find`). -/
def isPref : Chars → Chars → Bool
  | [], _ => true
  | _ :: _, [] => false
  | a :: as, b :: bs => if a = b then isPref as bs else false

/-- Model of Rust `str::find(pattern)`: index of the first occurrence of
`pat` in the text, if any.  (All patterns used by the source are ASCII, so
byte indices and character indices agree.) -/
def findSub (pat : Chars) : Chars → Option Nat
  | [] => if isPref pat [] then some 0 else none
  | c :: rest =>
    if isPref pat (c :: rest) then some 0
    else (findSub pat rest).map (· + 1)

/-- Model of Rust `str::contains(pattern)`. -/
def containsSub (pat text : Chars) : Bool :=
  (findSub pat text).isSome

/-- Model of Rust `str::split(sep).collect::<Vec<_>>()`: splits on every
occurrence of the separator, keeping empty pieces. -/
def splitOnChar (sep : Char) : Chars → List Chars
  | [] => [[]]
  | c :: rest =>
    if c = sep then [] :: splitOnChar sep rest
    else
      match splitOnChar sep rest with
      | [] => [[c]]
      | piece :: pieces => (c :: piece) :: pieces

/-! ## JSON values and the model of `serde_json::from_str` -/

/-- Exact decimal value `mant * 10 ^ exp`, the model of an `f64` number.
Kept in the canonical form produced by `mkF64` (mantissa not divisible by
ten, zero as `⟨0, 0⟩`), so that representation equality is value equality:
every numeric literal appearing in the claims (3, 3.0, "3", 725, ...) is
exactly representable in `f64` and in this form, so the model is faithful
on them. -/
structure F64Rep where
  mant : Int
  exp : Int
  deriving Repr, DecidableEq, Inhabited

def normF64Loop : Nat → Int → Int → F64Rep
  | 0, m, e => ⟨m, e⟩
  | fuel + 1, m, e =>
    if m = 0 then ⟨0, 0⟩
    else if m % 10 = 0 then normF64Loop fuel (m / 10) (e + 1)
    else ⟨m, e⟩

/-- Normalize `mant * 10 ^ exp` to canonical form. -/
def mkF64 (m e : Int) : F64Rep :=
  normF64Loop (m.natAbs + 1) m e

/-- JSON value tree. -/
inductive Json where
  | null
  | bool (b : Bool)
  | num (x : F64Rep)
  | str (s : Chars)
  | arr (elems : List Json)
  | obj (fields : List (Chars × Json))
  deriving Repr, Inhabited

def isWs (c : Char) : Bool :=
  c = ' ' || c = '\t' || c = '\n' || c = '\r'

def skipWs : Chars → Chars
  | [] => []
  | c :: rest => if isWs c then skipWs rest else c :: rest

def hexVal (c : Char) : Option Nat :=
  if '0' ≤ c ∧ c ≤ '9' then some (c.toNat - 48)
  else if 'a' ≤ c ∧ c ≤ 'f' then some (c.toNat - 87)
  else if 'A' ≤ c ∧ c ≤ 'F' then some (c.toNat - 55)
  else none

def escChar (c : Char) : Option Char :=
  if c = '"' then some '"'
  else if c = '\\' then some '\\'
  else if c = '/' then some '/'
  else if c = 'b' then some (Char.ofNat 8)
  else if c = 'f' then some (Char.ofNat 12)
  else if c = 'n' then some '\n'
  else if c = 'r' then some '\r'
  else if c = 't' then some '\t'
  else none

/-- Parse the body of a JSON string literal (the opening quote already
consumed); returns the decoded content and the remaining input after the
closing quote.  Unescaped control characters are rejected, as in
`serde_json`. -/
def parseStringBody : Chars → Option (Chars × Chars)
  | [] => none
  | c :: rest =>
    if c = '"' then some ([], rest)
    else if c = '\\' then
      match rest with
      | [] => none
      | e :: rest2 =>
        if e = 'u' then
          match rest2 with
          | h1 :: h2 :: h3 :: h4 :: rest3 =>
            match hexVal h1, hexVal h2, hexVal h3, hexVal h4 with
            | some a, some b, some cc, some d =>
              let n := ((a * 16 + b) * 16 + cc) * 16 + d
              if n < 0xd800 ∨ 0xe000 ≤ n then
                match parseStringBody rest3 with
                | some (s, r) => some (Char.ofNat n :: s, r)
                | none => none
              else none
            | _, _, _, _ => none
          | _ => none
        else
          match escChar e with
          | some c2 =>
            match parseStringBody rest2 with
            | some (s, r) => some (c2 :: s, r)
            | none => none
          | none => none
    else if c.toNat < 32 then none
    else
      match parseStringBody rest with
      | some (s, r) => some (c :: s, r)
      | none => none

def isDigit (c : Char) : Bool := '0' ≤ c && c ≤ '9'

/-- Consume leading decimal digits, returning accumulated value, count of
digits consumed, and the rest. -/
def digitsAux (acc cnt : Nat) : Chars → (Nat × Nat × Chars)
  | [] => (acc, cnt, [])
  | c :: rest =>
    if isDigit c then digitsAux (acc * 10 + (c.toNat - 48)) (cnt + 1) rest
    else (acc, cnt, c :: rest)

/-- Parse a JSON exponent part (after the `e`/`E`). -/
def parseExpPart (cs : Chars) : Option (Int × Chars) :=
  let (sgn, cs1) :=
    match cs with
    | '+' :: r => ((1 : Int), r)
    | '-' :: r => ((-1 : Int), r)
    | _ => ((1 : Int), cs)
  let (v, cnt, cs2) := digitsAux 0 0 cs1
  if cnt = 0 then none else some (sgn * (v : Int), cs2)

def headIsZero : Chars → Bool
  | '0' :: _ => true
  | _ => false

/-- Parse a JSON number token (strict JSON grammar: optional minus, no
leading zeros, optional fraction and exponent). -/
def parseNumberTok (cs : Chars) : Option (Json × Chars) :=
  let (neg, cs1) :=
    match cs with
    | '-' :: r => ((-1 : Int), r)
    | _ => ((1 : Int), cs)
  let (ival, icnt, cs2) := digitsAux 0 0 cs1
  if icnt = 0 then none
  else if 2 ≤ icnt ∧ headIsZero cs1 then none
  else
    let fracRes : Option (Nat × Nat × Chars) :=
      match cs2 with
      | '.' :: r =>
        let t := digitsAux 0 0 r
        if t.2.1 = 0 then none else some t
      | _ => some (0, 0, cs2)
    match fracRes with
    | none => none
    | some (fval, fcnt, cs3) =>
      let expRes : Option (Int × Chars) :=
        match cs3 with
        | 'e' :: r => parseExpPart r
        | 'E' :: r => parseExpPart r
        | _ => some (0, cs3)
      match expRes with
      | none => none
      | some (ex, cs4) =>
        let mantissa : Int := neg * ((ival * 10 ^ fcnt + fval : Nat) : Int)
        some (.num (mkF64 mantissa (ex - (fcnt : Int))), cs4)

def matchLit : Chars → Chars → Option Chars
  | [], cs => some cs
  | _ :: _, [] => none
  | l :: ls, c :: cs => if c = l then matchLit ls cs else none

mutual

/-- Fueled recursive-descent JSON value parser. -/
def parseValue : Nat → Chars → Option (Json × Chars)
  | 0, _ => none
  | fuel + 1, cs0 =>
    match skipWs cs0 with
    | [] => none
    | c :: rest =>
      if c = '"' then
        match parseStringBody rest with
        | some (s, r) => some (.str s, r)
        | none => none
      else if c = '\x7b' then parseObjBody fuel rest
      else if c = '[' then parseArrBody fuel rest
      else if c = 'n' then (matchLit ['u', 'l', 'l'] rest).map (fun r => (Json.null, r))
      else if c = 't' then (matchLit ['r', 'u', 'e'] rest).map (fun r => (Json.bool true, r))
      else if c = 'f' then (matchLit ['a', 'l', 's', 'e'] rest).map (fun r => (Json.bool false, r))
      else parseNumberTok (c :: rest)

/-- After a `[`: empty array or first element. -/
def parseArrBody : Nat → Chars → Option (Json × Chars)
  | 0, _ => none
  | fuel + 1, cs =>
    match skipWs cs with
    | [] => none
    | c :: rest =>
      if c = ']' then some (.arr [], rest)
      else
        match parseValue fuel (c :: rest) with
        | some (v, r) => parseArrTail fuel [v] r
        | none => none

/-- After an array element: `]` closes, `,` continues. -/
def parseArrTail : Nat → List Json → Chars → Option (Json × Chars)
  | 0, _, _ => none
  | fuel + 1, acc, cs =>
    match skipWs cs with
    | [] => none
    | c :: rest =>
      if c = ']' then some (.arr acc.reverse, rest)
      else if c = ',' then
        match parseValue fuel rest with
        | some (v, r) => parseArrTail fuel (v :: acc) r
        | none => none
      else none

/-- After a `{`: empty object or first key. -/
def parseObjBody : Nat → Chars → Option (Json × Chars)
  | 0, _ => none
  | fuel + 1, cs =>
    match skipWs cs with
    | [] => none
    | c :: rest =>
      if c = '\x7d' then some (.obj [], rest)
      else if c = '"' then
        match parseStringBody rest with
        | some (k, r) => parseMemberVal fuel [] k r
        | none => none
      else none

/-- After an object key: expect `:` then the value. -/
def parseMemberVal : Nat → List (Chars × Json) → Chars → Chars → Option (Json × Chars)
  | 0, _, _, _ => none
  | fuel + 1, acc, key, cs =>
    match skipWs cs with
    | [] => none
    | c :: rest =>
      if c = ':' then
        match parseValue fuel rest with
        | some (v, r) => parseObjTail fuel ((key, v) :: acc) r
        | none => none
      else none

/-- After an object member: `}` closes, `,` expects the next key. -/
def parseObjTail : Nat → List (Chars × Json) → Chars → Option (Json × Chars)
  | 0, _, _ => none
  | fuel + 1, acc, cs =>
    match skipWs cs with
    | [] => none
    | c :: rest =>
      if c = '\x7d' then some (.obj acc.reverse, rest)
      else if c = ',' then
        match skipWs rest with
        | [] => none
        | c2 :: rest2 =>
          if c2 = '"' then
            match parseStringBody rest2 with
            | some (k, r) => parseMemberVal fuel acc k r
            | none => none
          else none
      else none

end

/-- Model of `serde_json` top-level parsing: one JSON value, then only
whitespace may remain ("trailing characters" otherwise). -/
def json_from_str (s : Chars) : Option Json :=
  match parseValue (4 * s.length + 16) s with
  | some (v, rest) =>
    match skipWs rest with
    | [] => some v
    | _ :: _ => none
  | none => none

/-! ## Validation-error structures (source lines 17-34) -/

/-- `pub struct ValidationError { message: String, path: String }`. -/
structure ValidationError where
  message : Chars
  path : Chars
  deriving Repr, DecidableEq

/-- Result of looking a field up in a decoded JSON object, with
`serde_derive` semantics: a duplicate occurrence of a known field is an
error, unknown fields are ignored. -/
inductive FieldLookup where
  | missing
  | dup
  | found (v : Json)
  deriving Repr, Inhabited

def getField (key : Chars) : List (Chars × Json) → FieldLookup
  | [] => .missing
  | (k, v) :: rest =>
    if k = key then
      match getField key rest with
      | .missing => .found v
      | _ => .dup
    else getField key rest

/-- Decode one element of the `errors` list as
`ValidationError { message, path }` (both required strings; unknown fields
ignored; `serde_derive` also accepts the positional sequence form). -/
def decodeValidationErrorItem : Json → Option ValidationError
  | .obj fields =>
    match getField ("message".data) fields, getField ("path".data) fields with
    | .found (.str m), .found (.str p) => some ⟨m, p⟩
    | _, _ => none
  | .arr [.str m, .str p] => some ⟨m, p⟩
  | _ => none

/-- Decode `ValidationErrorSource { errors: Vec<ValidationError> }`. -/
def decodeValidationErrorSource : Json → Option (List ValidationError)
  | .obj fields =>
    match getField ("errors".data) fields with
    | .found (.arr items) => items.mapM decodeValidationErrorItem
    | _ => none
  | .arr [.arr items] => items.mapM decodeValidationErrorItem
  | _ => none

/-- Decode `ValidationErrorDetails { source: ValidationErrorSource,
"type": String }` from a JSON value.  The `type` field only has to be a
string (its content is dead code in the source). -/
def decodeValidationErrorDetailsJson : Json → Option (List ValidationError)
  | .obj fields =>
    match getField ("source".data) fields, getField ("type".data) fields with
    | .found sv, .found (.str _) => decodeValidationErrorSource sv
    | _, _ => none
  | .arr [sv, .str _] => decodeValidationErrorSource sv
  | _ => none

/-- Model of `serde_json::from_str::<ValidationErrorDetails>(candidate)`,
returning `details.source.errors` on success (source line 381-383). -/
def decodeValidationErrorDetails (s : Chars) : Option (List ValidationError) :=
  match json_from_str s with
  | some j => decodeValidationErrorDetailsJson j
  | none => none

/-! ## The error salvage extractor (source lines 346-430) -/

def phraseIsNotOneOf : Chars := ("is not one of".data)
def msgKeyContains : Chars := ("\"message\":".data)
def msgKeyFind : Chars := ("\"message\":\"".data)
def pathKeyContains : Chars := ("\"path\":".data)
def pathKeyFind : Chars := ("\"path\":\"".data)
def sentinelPath : Chars := ("/input/unknown".data)

/-- One pass of the `manual_extract_errors` loop body for the `message`
variable: lines containing `"message":` update it via literal prefix
matching (source lines 403-410). -/
def manualLineMsg (line msg : Chars) : Chars :=
  if containsSub msgKeyContains line then
    match findSub msgKeyFind line with
    | some start =>
      let rest := line.drop (start + msgKeyFind.length)
      match findSub ['"'] rest with
      | some e => rest.take e
      | none => msg
    | none => msg
  else msg

/-- One pass of the `manual_extract_errors` loop body for the `path`
variable (source lines 411-418). -/
def manualLinePath (line path : Chars) : Chars :=
  if containsSub pathKeyContains line then
    match findSub pathKeyFind line with
    | some start =>
      let rest := line.drop (start + pathKeyFind.length)
      match findSub ['"'] rest with
      | some e => rest.take e
      | none => path
    | none => path
  else path

/-- Model of `ExcedenciaDecisionEngine::manual_extract_errors` (source
lines 395-430): only texts containing "is not one of" are scanned; the
text is split on commas, a message and a path are scraped from the
fragments, and a single issue is synthesized when a message was found,
with the path defaulting to `/input/unknown`. -/
def manual_extract_errors (text : Chars) : Option (List ValidationError) :=
  if containsSub phraseIsNotOneOf text then
    let lines := splitOnChar ',' text
    let mp := lines.foldl
      (fun (mp : Chars × Chars) line =>
        (manualLineMsg line mp.1, manualLinePath line mp.2))
      ([], [])
    if mp.1 = [] then none
    else some [⟨mp.1, if mp.2 = [] then sentinelPath else mp.2⟩]
  else none

def pat1Start : Chars := ("\x7b\"source\":\x7b\"errors\":".data)
def pat1End : Chars := ("\"type\":\"Validation\"\x7d".data)
def pat2Start : Chars := ("\x7b\"errors\":".data)
def pat2End : Chars := ("\"type\":\"Validation\"\x7d".data)
def pat3Start : Chars := ("\"errors\":[".data)
def pat3End : Chars := ("]".data)

def jsonPatterns : List (Chars × Chars) :=
  [(pat1Start, pat1End), (pat2Start, pat2End), (pat3Start, pat3End)]

/-- The pattern loop of `extract_json_from_string` (source lines 374-390):
for each marker pair, if both the opening marker and (after it) the
closing marker are found, the spanned substring is decoded as
`ValidationErrorDetails`; on decode failure `manual_extract_errors` is
tried on the whole text before moving to the next pattern. -/
def extractLoop (text : Chars) : List (Chars × Chars) → Option (List ValidationError)
  | [] => manual_extract_errors text
  | (sp, ep) :: rest =>
    match findSub sp text with
    | none => extractLoop text rest
    | some start =>
      match findSub ep (text.drop (start + sp.length)) with
      | none => extractLoop text rest
      | some rel =>
        let candidate := (text.drop start).take (sp.length + rel + ep.length)
        match decodeValidationErrorDetails candidate with
        | some errs => some errs
        | none =>
          match manual_extract_errors text with
          | some errs => some errs
          | none => extractLoop text rest

/-- Model of `ExcedenciaDecisionEngine::extract_json_from_string` (source
lines 367-393). -/
def extract_json_from_string (text : Chars) : Option (List ValidationError) :=
  extractLoop text jsonPatterns

/-- The cascade as the specification words it (spec section 4.4 steps 3-4,
claim C1): structured decoding is attempted at every found marker pair
first, and only if it fails at all of them (or no marker is found) does
the heuristic comma-split scan run.  This definition follows the spec's
words, for comparison with `extract_json_from_string` above. -/
def extractLoopSpecOrder (text : Chars) : List (Chars × Chars) → Option (List ValidationError)
  | [] => manual_extract_errors text
  | (sp, ep) :: rest =>
    match findSub sp text with
    | none => extractLoopSpecOrder text rest
    | some start =>
      match findSub ep (text.drop (start + sp.length)) with
      | none => extractLoopSpecOrder text rest
      | some rel =>
        let candidate := (text.drop start).take (sp.length + rel + ep.length)
        match decodeValidationErrorDetails candidate with
        | some errs => some errs
        | none => extractLoopSpecOrder text rest

def extract_json_as_specified (text : Chars) : Option (List ValidationError) :=
  extractLoopSpecOrder text jsonPatterns

/-- The two finds the loop performs for one marker pair: the position of
the opening marker, and the position of the closing marker after it.  A
pair whose opening marker is absent, or occurs with no closing marker
after it, is not found (`none`) — the loop skips it either way. -/
def pairSpan (sp ep text : Chars) : Option (Nat × Nat) :=
  match findSub sp text with
  | none => none
  | some start =>
    match findSub ep (text.drop (start + sp.length)) with
    | none => none
    | some rel => some (start, rel)

/-! ## Failure classification (source lines 335-365) -/

/-- Observable renderings of a `zen_engine::EvaluationError` value:
`sourceDebug` is the Debug-format rendering of `node_error.source` when
the error is a `NodeError` (and `none` otherwise), `fullDebug` the
Debug-format rendering of the whole error, and `displayText` its
`Display` rendering. -/
structure EvaluationErrorModel where
  sourceDebug : Option Chars
  fullDebug : Chars
  displayText : Chars
  deriving Repr, DecidableEq

/-- The diagnostic texts the salvage extractor scans for a given failure. -/
def debugTextsOf (e : EvaluationErrorModel) : List Chars :=
  match e.sourceDebug with
  | some s => [s, e.fullDebug]
  | none => [e.fullDebug]

/-- Model of `ExcedenciaDecisionEngine::extract_validation_errors` (source
lines 347-356): a `NodeError`'s source debug text is scanned first; if
that yields nothing (or the error is not a `NodeError`), the whole error's
debug text is scanned. -/
def extract_validation_errors (e : EvaluationErrorModel) : Option (List ValidationError) :=
  match e.sourceDebug with
  | some s =>
    match extract_json_from_string s with
    | some errs => some errs
    | none => extract_json_from_string e.fullDebug
  | none => extract_json_from_string e.fullDebug

/-- `enum ExcedenciaError` (source lines 36-41). -/
inductive ExcedenciaErrorM where
  | validationError (errs : List ValidationError)
  | zenEngineError (e : EvaluationErrorModel)
  | serializationError (msg : Chars)
  deriving Repr, DecidableEq

/-- The `Err` branch of `evaluate_excedencia` (source lines 335-343):
salvageable validation detail becomes `ValidationError`, anything else is
wrapped unmodified as `ZenEngineError`. -/
def classifyEngineFailure (e : EvaluationErrorModel) : ExcedenciaErrorM :=
  match extract_validation_errors e with
  | some errs => .validationError errs
  | none => .zenEngineError e

/-- `impl fmt::Display for ExcedenciaError` (source lines 43-57). -/
def displayExcedenciaError : ExcedenciaErrorM → Chars
  | .validationError errs =>
    errs.foldl
      (fun acc e => acc ++ (("  - ".data) ++ e.path ++ (": ".data) ++ e.message ++ ("\n".data)))
      ("Errores de validación:\n".data)
  | .zenEngineError e => ("Error del motor de decisión: ".data) ++ e.displayText
  | .serializationError m => ("Error de serialización: ".data) ++ m

/-! ## The tolerant field decoders (source lines 76-191) -/

/-- ASCII lowercasing, modelling `str::to_lowercase` on the inputs in play
(all comparisons in the source are against the ASCII literals
"true"/"false"). -/
def lowerAscii (s : Chars) : Chars :=
  s.map fun c => if 'A' ≤ c ∧ c ≤ 'Z' then Char.ofNat (c.toNat + 32) else c

/-- Model of `deserialize_bool_or_string` (source lines 76-119), driven by
`deserialize_any`: a native boolean passes through (`visit_bool`); a
string is lowercased and compared against "true"/"false" (`visit_str`),
any other string failing with an error naming the offending literal; every
other JSON shape (null, numbers, arrays, objects) hits the visitor's
default methods and fails with an invalid-type error mentioning the
visitor's expecting text "bool or string". -/
def deserialize_bool_or_string : Json → Except Chars Bool
  | .bool b => .ok b
  | .str s =>
    if lowerAscii s = ("true".data) then .ok true
    else if lowerAscii s = ("false".data) then .ok false
    else .error (("invalid boolean string: ".data) ++ s)
  | _ => .error ("invalid type, expected bool or string".data)

/-- Model of `"3".parse::<f64>()`-style parsing for the numeric strings in
play: optional sign, digits, optional fraction, optional exponent, the
whole string consumed.  (Rust's float grammar additionally accepts
inf/NaN spellings; no claim touches those.) -/
def parseFloatStr (s : Chars) : Option F64Rep :=
  let (neg, cs1) :=
    match s with
    | '-' :: r => ((-1 : Int), r)
    | '+' :: r => ((1 : Int), r)
    | _ => ((1 : Int), s)
  let (ival, icnt, cs2) := digitsAux 0 0 cs1
  let fracRes : Option (Nat × Nat × Chars) :=
    match cs2 with
    | '.' :: r =>
      let t := digitsAux 0 0 r
      if icnt = 0 ∧ t.2.1 = 0 then none else some t
    | _ => if icnt = 0 then none else some (0, 0, cs2)
  match fracRes with
  | none => none
  | some (fval, fcnt, cs3) =>
    let expRes : Option (Int × Chars) :=
      match cs3 with
      | 'e' :: r => parseExpPart r
      | 'E' :: r => parseExpPart r
      | _ => some (0, cs3)
    match expRes with
    | none => none
    | some (ex, cs4) =>
      match cs4 with
      | [] =>
        let mantissa : Int := neg * ((ival * 10 ^ fcnt + fval : Nat) : Int)
        some (mkF64 mantissa (ex - (fcnt : Int)))
      | _ :: _ => none

/-- Model of `deserialize_f64_or_string` (source lines 122-191): a native
number passes through (`visit_f64`/`visit_i64`/`visit_u64`); a numeric
string is parsed, failing with an error naming the offending literal;
explicit null yields `none` (`visit_unit`); booleans, arrays and objects
hit the visitor defaults and fail. -/
def deserialize_f64_or_string : Json → Except Chars (Option F64Rep)
  | .num q => .ok (some q)
  | .str s =>
    match parseFloatStr s with
    | some q => .ok (some q)
    | none => .error (("invalid number string: ".data) ++ s)
  | .null => .ok none
  | _ => .error ("invalid type, expected f64, string, or null".data)

/-! ## Data structures (source lines 196-289) -/

/-- `pub struct ExcedenciaDirectParams` (source lines 196-212): the flat
caller-facing parameter set. -/
structure ExcedenciaDirectParams where
  parentesco : Chars
  situacion : Chars
  familia_monoparental : Bool
  numero_hijos : Option F64Rep
  deriving Repr, DecidableEq

/-- `pub struct ExcedenciaInput` (source lines 215-231): the nested engine
input; field-for-field identical to the direct parameters. -/
structure ExcedenciaInput where
  parentesco : Chars
  situacion : Chars
  familia_monoparental : Bool
  numero_hijos : Option F64Rep
  deriving Repr, DecidableEq

/-- `pub struct ExcedenciaRequest { input: ExcedenciaInput }` (source
lines 233-237). -/
structure ExcedenciaRequest where
  input : ExcedenciaInput
  deriving Repr, DecidableEq

/-- `struct ExcedenciaOutput` (source lines 239-251), the internal output
shape. -/
structure ExcedenciaOutput where
  descripcion : Chars
  importe_mensual : Int
  requisitos_adicionales : Chars
  supuesto : Chars
  tiene_derecho_potencial : Bool
  errores : List Chars
  advertencias : List Chars
  deriving Repr, DecidableEq

/-- `pub struct ExcedenciaOutputForSchema` (source lines 264-289), the
caller-facing output shape (same fields as the internal one). -/
structure ExcedenciaOutputForSchema where
  descripcion : Chars
  importe_mensual : Int
  requisitos_adicionales : Chars
  supuesto : Chars
  tiene_derecho_potencial : Bool
  errores : List Chars
  advertencias : List Chars
  deriving Repr, DecidableEq

/-- `pub struct ExcedenciaResponse` (source lines 253-261). -/
structure ExcedenciaResponse where
  output : ExcedenciaOutputForSchema
  input : Option ExcedenciaInput
  parentesco_valido : Option Bool
  deriving Repr, DecidableEq

/-! ## Struct decoders, mirroring `serde_derive` -/

def decodeStringJson : Json → Except Chars Chars
  | .str s => .ok s
  | _ => .error ("invalid type, expected a string".data)

def decodeBoolPlain : Json → Except Chars Bool
  | .bool b => .ok b
  | _ => .error ("invalid type, expected a boolean".data)

/-- Decode an `i32`: `serde_json` only accepts integral JSON numbers in
the `i32` range.  (The decimal model conflates the integer token 3 with
the float token 3.0 after normalization; this only makes the model decode
a superset of what serde accepts, which no claim distinguishes.) -/
def decodeI32 : Json → Except Chars Int
  | .num x =>
    if 0 ≤ x.exp then
      if -(2 ^ 31) ≤ x.mant * 10 ^ x.exp.toNat ∧ x.mant * 10 ^ x.exp.toNat < 2 ^ 31
      then .ok (x.mant * 10 ^ x.exp.toNat)
      else .error ("invalid value for i32".data)
    else .error ("invalid value for i32 (not an integer)".data)
  | _ => .error ("invalid type, expected i32".data)

def decodeStrings : List Json → Except Chars (List Chars)
  | [] => .ok []
  | x :: xs =>
    match decodeStringJson x with
    | .error e => .error e
    | .ok s =>
      match decodeStrings xs with
      | .error e => .error e
      | .ok ss => .ok (s :: ss)

def decodeStringListJson : Json → Except Chars (List Chars)
  | .arr xs => decodeStrings xs
  | _ => .error ("invalid type, expected a sequence".data)

/-- Decode `ExcedenciaDirectParams` from a JSON object with
`serde_derive` semantics.  Key point (serde_derive `expr_is_missing`): a
field carrying `#[serde(deserialize_with = ...)]` and no
`#[serde(default)]` raises a missing-field error when absent, even when
its type is `Option<_>` — this applies to `numero_hijos`, so omitting it
is an error while an explicit null decodes to `none`. -/
def decodeExcedenciaDirectParams (j : Json) : Except Chars ExcedenciaDirectParams :=
  match j with
  | .obj fields =>
    match getField ("parentesco".data) fields with
    | .missing => .error ("missing field parentesco".data)
    | .dup => .error ("duplicate field parentesco".data)
    | .found pv =>
      match decodeStringJson pv with
      | .error e => .error e
      | .ok parentesco =>
        match getField ("situacion".data) fields with
        | .missing => .error ("missing field situacion".data)
        | .dup => .error ("duplicate field situacion".data)
        | .found sv =>
          match decodeStringJson sv with
          | .error e => .error e
          | .ok situacion =>
            match getField ("familia_monoparental".data) fields with
            | .missing => .error ("missing field familia_monoparental".data)
            | .dup => .error ("duplicate field familia_monoparental".data)
            | .found fv =>
              match deserialize_bool_or_string fv with
              | .error e => .error e
              | .ok fam =>
                match getField ("numero_hijos".data) fields with
                | .missing => .error ("missing field numero_hijos".data)
                | .dup => .error ("duplicate field numero_hijos".data)
                | .found nv =>
                  match deserialize_f64_or_string nv with
                  | .error e => .error e
                  | .ok nh => .ok ⟨parentesco, situacion, fam, nh⟩
  | _ => .error ("invalid type, expected struct ExcedenciaDirectParams".data)

/-- Decode `ExcedenciaInput`; identical field semantics to the direct
parameters (same attributes in the source). -/
def decodeExcedenciaInput (j : Json) : Except Chars ExcedenciaInput :=
  match decodeExcedenciaDirectParams j with
  | .ok p => .ok ⟨p.parentesco, p.situacion, p.familia_monoparental, p.numero_hijos⟩
  | .error e => .error e

/-- Decode `ExcedenciaOutputForSchema`: `descripcion`, `importe_mensual`,
`supuesto`, `tiene_derecho_potencial` are required;
`requisitos_adicionales`, `errores`, `advertencias` carry
`#[serde(default)]`. -/
def decodeExcedenciaOutputForSchema (j : Json) : Except Chars ExcedenciaOutputForSchema :=
  match j with
  | .obj fields =>
    match getField ("descripcion".data) fields with
    | .missing => .error ("missing field descripcion".data)
    | .dup => .error ("duplicate field descripcion".data)
    | .found dv =>
      match decodeStringJson dv with
      | .error e => .error e
      | .ok descripcion =>
        match getField ("importe_mensual".data) fields with
        | .missing => .error ("missing field importe_mensual".data)
        | .dup => .error ("duplicate field importe_mensual".data)
        | .found iv =>
          match decodeI32 iv with
          | .error e => .error e
          | .ok importe =>
            match
              ((match getField ("requisitos_adicionales".data) fields with
                | .missing => .ok ([] : Chars)
                | .dup => .error ("duplicate field requisitos_adicionales".data)
                | .found rv => decodeStringJson rv) : Except Chars Chars) with
            | .error e => .error e
            | .ok req =>
              match getField ("supuesto".data) fields with
              | .missing => .error ("missing field supuesto".data)
              | .dup => .error ("duplicate field supuesto".data)
              | .found sv =>
                match decodeStringJson sv with
                | .error e => .error e
                | .ok supuesto =>
                  match getField ("tiene_derecho_potencial".data) fields with
                  | .missing => .error ("missing field tiene_derecho_potencial".data)
                  | .dup => .error ("duplicate field tiene_derecho_potencial".data)
                  | .found tv =>
                    match decodeBoolPlain tv with
                    | .error e => .error e
                    | .ok tiene =>
                      match
                        ((match getField ("errores".data) fields with
                          | .missing => .ok ([] : List Chars)
                          | .dup => .error ("duplicate field errores".data)
                          | .found ev => decodeStringListJson ev) :
                          Except Chars (List Chars)) with
                      | .error e => .error e
                      | .ok errores =>
                        match
                          ((match getField ("advertencias".data) fields with
                            | .missing => .ok ([] : List Chars)
                            | .dup => .error ("duplicate field advertencias".data)
                            | .found av => decodeStringListJson av) :
                            Except Chars (List Chars)) with
                        | .error e => .error e
                        | .ok advertencias =>
                          .ok ⟨descripcion, importe, req, supuesto, tiene, errores, advertencias⟩
  | _ => .error ("invalid type, expected struct ExcedenciaOutputForSchema".data)

/-- Decode the internal `ExcedenciaOutput`; same field names and defaults
as the caller-facing shape. -/
def decodeExcedenciaOutput (j : Json) : Except Chars ExcedenciaOutput :=
  match decodeExcedenciaOutputForSchema j with
  | .ok o =>
    .ok ⟨o.descripcion, o.importe_mensual, o.requisitos_adicionales, o.supuesto,
      o.tiene_derecho_potencial, o.errores, o.advertencias⟩
  | .error e => .error e

/-- Decode an `Option<ExcedenciaInput>` field value (null decodes to
`none`). -/
def decodeOptInput : Json → Except Chars (Option ExcedenciaInput)
  | .null => .ok none
  | v =>
    match decodeExcedenciaInput v with
    | .ok i => .ok (some i)
    | .error e => .error e

def decodeOptBool : Json → Except Chars (Option Bool)
  | .null => .ok none
  | .bool b => .ok (some b)
  | _ => .error ("invalid type, expected bool or null".data)

/-- Decode `ExcedenciaResponse`: `output` is required, `input` and
`parentesco_valido` carry `#[serde(default)]`. -/
def decodeExcedenciaResponse (j : Json) : Except Chars ExcedenciaResponse :=
  match j with
  | .obj fields =>
    match getField ("output".data) fields with
    | .missing => .error ("missing field output".data)
    | .dup => .error ("duplicate field output".data)
    | .found ov =>
      match decodeExcedenciaOutputForSchema ov with
      | .error e => .error e
      | .ok output =>
        match
          ((match getField ("input".data) fields with
            | .missing => .ok (none : Option ExcedenciaInput)
            | .dup => .error ("duplicate field input".data)
            | .found iv => decodeOptInput iv) :
            Except Chars (Option ExcedenciaInput)) with
        | .error e => .error e
        | .ok inp =>
          match
            ((match getField ("parentesco_valido".data) fields with
              | .missing => .ok (none : Option Bool)
              | .dup => .error ("duplicate field parentesco_valido".data)
              | .found pv => decodeOptBool pv) : Except Chars (Option Bool)) with
          | .error e => .error e
          | .ok pval => .ok ⟨output, inp, pval⟩
  | _ => .error ("invalid type, expected struct ExcedenciaResponse".data)

/-- Model of `serde_json::to_value` on `ExcedenciaOutputForSchema`: all
seven fields are serialized, in declaration order. -/
def outputForSchemaToJson (o : ExcedenciaOutputForSchema) : Json :=
  .obj
    [(("descripcion".data), .str o.descripcion),
     (("importe_mensual".data), .num ⟨o.importe_mensual, 0⟩),
     (("requisitos_adicionales".data), .str o.requisitos_adicionales),
     (("supuesto".data), .str o.supuesto),
     (("tiene_derecho_potencial".data), .bool o.tiene_derecho_potencial),
     (("errores".data), .arr (o.errores.map .str)),
     (("advertencias".data), .arr (o.advertencias.map .str))]

/-- The `Ok` branch of `evaluate_excedencia` (source lines 313-333): the
engine's raw result is deserialized to an `ExcedenciaResponse`, the output
is round-tripped through `serde_json` into the internal `ExcedenciaOutput`
shape, and the response's output is rebuilt field-for-field from it. -/
def evaluate_excedencia_success (raw : Json) : Except Chars ExcedenciaResponse :=
  match decodeExcedenciaResponse raw with
  | .error e => .error e
  | .ok resp =>
    match decodeExcedenciaOutput (outputForSchemaToJson resp.output) with
    | .error e => .error e
    | .ok internal =>
      .ok
        { resp with
          output :=
            { descripcion := internal.descripcion
              importe_mensual := internal.importe_mensual
              requisitos_adicionales := internal.requisitos_adicionales
              supuesto := internal.supuesto
              tiene_derecho_potencial := internal.tiene_derecho_potencial
              errores := internal.errores
              advertencias := internal.advertencias } }

/-! ## Request shaping and the tool entry point (source lines 470-527) -/

/-- The request construction at the top of `evaluar_supuesto_excedencia`
(source lines 475-482): the flat parameters are copied field-for-field
into the nested engine request. -/
def requestOfDirectParams (p : ExcedenciaDirectParams) : ExcedenciaRequest :=
  ⟨⟨p.parentesco, p.situacion, p.familia_monoparental, p.numero_hijos⟩⟩

/-- Modelled from the spec: the rules engine's success result echoes the
request's input envelope back in the response's `input` field (spec
sections 6 and 8; the bundled ruleset `ayuda-excedencia-2025.json` that
produces the echo is not part of the source tree). -/
def engineInputEcho (r : ExcedenciaRequest) : Option ExcedenciaInput :=
  some r.input

/-- Reading the caller-facing input echo back as the flat parameter set. -/
def directParamsOfInput (i : ExcedenciaInput) : ExcedenciaDirectParams :=
  ⟨i.parentesco, i.situacion, i.familia_monoparental, i.numero_hijos⟩

/-- `rmcp::model::CallToolResult`, reduced to its observable content: a
list of text contents plus the success/error flag. -/
inductive CallToolResultM where
  | success (content : List Chars)
  | error (content : List Chars)
  deriving Repr, DecidableEq

def natDigits (n : Nat) : Chars :=
  if h : n < 10 then [Char.ofNat (48 + n)]
  else natDigits (n / 10) ++ [Char.ofNat (48 + n % 10)]
  decreasing_by exact Nat.div_lt_self (by omega) (by omega)

def intDigits : Int → Chars
  | .ofNat n => natDigits n
  | .negSucc n => '-' :: natDigits (n + 1)

/-- Compact rendering of a decimal (exact for the integral values the
source produces; `serde_json` renders floats in decimal — the exact text
is not inspected by any claim). -/
def renderF64 (x : F64Rep) : Chars :=
  if x.exp = 0 then intDigits x.mant
  else intDigits x.mant ++ ("e".data) ++ intDigits x.exp

def renderStringLit (s : Chars) : Chars :=
  '"' :: (s.foldr
    (fun c acc =>
      if c = '"' then '\\' :: '"' :: acc
      else if c = '\\' then '\\' :: '\\' :: acc
      else if c = '\n' then '\\' :: 'n' :: acc
      else c :: acc)
    ['"'])

mutual

/-- Compact JSON rendering (models `serde_json::to_string_pretty` up to
whitespace; no claim inspects the rendered success text). -/
def renderJson : Json → Chars
  | .null => ("null".data)
  | .bool true => ("true".data)
  | .bool false => ("false".data)
  | .num x => renderF64 x
  | .str s => renderStringLit s
  | .arr xs => '[' :: renderJsonList xs ++ [']']
  | .obj fs => '\x7b' :: renderJsonFields fs ++ ['\x7d']

def renderJsonList : List Json → Chars
  | [] => []
  | [x] => renderJson x
  | x :: y :: rest => renderJson x ++ [','] ++ renderJsonList (y :: rest)

def renderJsonFields : List (Chars × Json) → Chars
  | [] => []
  | [(k, v)] => renderStringLit k ++ [':'] ++ renderJson v
  | (k, v) :: f :: rest =>
    renderStringLit k ++ [':'] ++ renderJson v ++ [','] ++ renderJsonFields (f :: rest)

end

def optJson (f : α → Json) : Option α → Json
  | none => .null
  | some a => f a

def inputToJson (i : ExcedenciaInput) : Json :=
  .obj
    ([(("parentesco".data), .str i.parentesco),
      (("situacion".data), .str i.situacion),
      (("familia_monoparental".data), .bool i.familia_monoparental)] ++
     (match i.numero_hijos with
      | none => []
      | some q => [(("numero_hijos".data), Json.num q)]))

def responseToJson (r : ExcedenciaResponse) : Json :=
  .obj
    [(("output".data), outputForSchemaToJson r.output),
     (("input".data), optJson inputToJson r.input),
     (("parentesco_valido".data), optJson Json.bool r.parentesco_valido)]

/-- The per-error rendering of the validation branch of
`evaluar_supuesto_excedencia` (source lines 508-514): note it differs from
the `Display` rendering. -/
def renderValidationErrorsMsg (errs : List ValidationError) : Chars :=
  errs.foldl
    (fun acc e =>
      acc ++ (("  - Campo '".data) ++ e.path ++ ("': ".data) ++ e.message ++ ("\n".data)))
    ("Errores de validación:\n".data)

/-- Model of the result dispatch of `evaluar_supuesto_excedencia` (source
lines 494-526).  The argument is the joined outcome of the isolated
execution unit: the outer `Except` is the `tokio::task::spawn_blocking`
join result (its error payload the join error's text), the inner one the
evaluation outcome.  Every arm of the source returns `Ok(...)`; the
function's own error type (`McpError`) is never produced. -/
def evaluar_supuesto_excedencia
    (joined : Except Chars (Except ExcedenciaErrorM ExcedenciaResponse)) :
    Except Chars CallToolResultM :=
  match joined with
  | .ok (.ok response) =>
    .ok (.success [renderJson (responseToJson response)])
  | .ok (.error e) =>
    let msg :=
      match e with
      | .validationError errs => renderValidationErrorsMsg errs
      | _ => ("Error al evaluar: ".data) ++ displayExcedenciaError e
    .ok (.error [msg])
  | .error joinErr => .ok (.error [("Error interno: ".data) ++ joinErr])

/-! ## Concrete diagnostic texts used by counterexamples and witnesses -/

/-- A decodable pattern-2 envelope (its top-level unknown field `errors`
is ignored by serde, its `source`/`type` fields decode). -/
def c1envelope : Chars :=
  ("\x7b\"errors\":[],\"source\":\x7b\"errors\":[\x7b\"message\":\"m2\",\"path\":\"p2\"\x7d]\x7d,\"type\":\"Validation\"\x7d".data)

/-- A pattern-1 marker pair whose spanned fragment is not valid JSON. -/
def c1badMarker : Chars :=
  ("\x7b\"source\":\x7b\"errors\":#\"type\":\"Validation\"\x7d".data)

/-- Comma-separated heuristic bait: triggers the "is not one of" scan and
plants message/path fragments that differ from the envelope's. -/
def c1bait : Chars :=
  (", \"message\":\"WRONG\", \"path\":\"WRONGPATH\", is not one of".data)

/-- Diagnostic text on which the source's interleaved cascade and the
spec's decode-all-markers-first cascade disagree. -/
def c1text : Chars := c1envelope ++ c1badMarker ++ c1bait

/-- The well-formed validation envelope fragment of claim C2, with message
"m" and path "p". -/
def c2frag : Chars :=
  ("\x7b\"source\":\x7b\"errors\":[\x7b\"message\":\"m\",\"path\":\"p\"\x7d]\x7d,\"type\":\"Validation\"\x7d".data)

/-- The interior of `c2frag` between its opening marker and closing
marker. -/
def c2mid : Chars := ("[\x7b\"message\":\"m\",\"path\":\"p\"\x7d]\x7d,".data)

/-- Claim C2's fragment embedded in adversarial noise: a bare opening
marker prefixed to the fragment derails all three marker scans. -/
def c2text : Chars := pat1Start ++ c2frag

/-- Claim C3's shape with a comma inside the quoted message: the
comma-split runs before fragment matching and truncates the message. -/
def c3text : Chars := ("\"message\":\"a is not one of [1,2]\"".data)

/-- The hypotheses of claim C4 on one diagnostic text: none of the three
markers occurs and the phrase "is not one of" does not occur. -/
abbrev noMarkersNoPhrase (t : Chars) : Prop :=
  findSub pat1Start t = none ∧ findSub pat2Start t = none ∧
    findSub pat3Start t = none ∧ containsSub phraseIsNotOneOf t = false

/-! ## Helper lemmas about the scanning primitives -/

theorem isPref_append_self (p x : Chars) : isPref p (p ++ x) = true := by
  induction p with
  | nil => rfl
  | cons a as ih => simpa [isPref] using ih

theorem isPref_length_le {p x : Chars} (h : isPref p x = true) :
    p.length ≤ x.length := by
  induction p generalizing x with
  | nil => simp
  | cons a as ih =>
    cases x with
    | nil => exact absurd h (by simp [isPref])
    | cons b bs =>
      rw [isPref] at h
      by_cases hab : a = b
      · rw [if_pos hab] at h
        simpa using ih h
      · rw [if_neg hab] at h
        cases h

theorem isPref_iff_append {p x : Chars} : isPref p x = true ↔ ∃ r, x = p ++ r := by
  induction p generalizing x with
  | nil => simp [isPref]
  | cons a as ih =>
    cases x with
    | nil =>
      constructor
      · intro h; exact absurd h (by simp [isPref])
      · rintro ⟨r, hr⟩; cases hr
    | cons b bs =>
      rw [isPref]
      by_cases hab : a = b
      · subst hab
        rw [if_pos rfl, ih]
        constructor
        · rintro ⟨r, rfl⟩; exact ⟨r, rfl⟩
        · rintro ⟨r, hr⟩
          rw [List.cons_append] at hr
          exact ⟨r, (List.cons.injEq _ _ _ _ ▸ hr).2⟩
      · rw [if_neg hab]
        constructor
        · intro h; cases h
        · rintro ⟨r, hr⟩
          rw [List.cons_append] at hr
          exact absurd (List.cons.injEq _ _ _ _ ▸ hr).1.symm hab

theorem isPref_append_right {p x : Chars} (y : Chars) (h : isPref p x = true) :
    isPref p (x ++ y) = true := by
  obtain ⟨r, rfl⟩ := isPref_iff_append.1 h
  rw [List.append_assoc]
  exact isPref_append_self _ _

theorem isPref_of_append_left {p xs ys : Chars} (hlen : p.length ≤ xs.length)
    (h : isPref p (xs ++ ys) = true) : isPref p xs = true := by
  obtain ⟨r, hr⟩ := isPref_iff_append.1 h
  have htake : xs.take p.length = p := by
    have h1 : (xs ++ ys).take p.length = xs.take p.length :=
      List.take_append_of_le_length hlen
    have h2 : (p ++ r).take p.length = p := List.take_left' rfl
    rw [hr, h2] at h1
    exact h1.symm
  have : xs = p ++ xs.drop p.length := by
    conv_lhs => rw [← List.take_append_drop p.length xs]
    rw [htake]
  exact isPref_iff_append.2 ⟨xs.drop p.length, this⟩

theorem isPref_take {p x : Chars} {n : Nat} (h : isPref p x = true)
    (hn : p.length ≤ n) : isPref p (x.take n) = true := by
  obtain ⟨r, rfl⟩ := isPref_iff_append.1 h
  rw [List.take_append_eq_append_take, List.take_of_length_le hn]
  exact isPref_append_self _ _

theorem findSub_nil_pat (t : Chars) : findSub [] t = some 0 := by
  cases t <;> simp [findSub, isPref]

theorem findSub_isPref {pat t : Chars} {k : Nat} (h : findSub pat t = some k) :
    isPref pat (t.drop k) = true := by
  induction t generalizing k with
  | nil =>
    rw [findSub] at h
    by_cases hp : isPref pat [] = true
    · rw [if_pos hp] at h
      injection h with h0
      subst h0
      simpa using hp
    · rw [if_neg hp] at h
      cases h
  | cons c rest ih =>
    rw [findSub] at h
    by_cases hp : isPref pat (c :: rest) = true
    · rw [if_pos hp] at h
      injection h with h0
      subst h0
      simpa using hp
    · rw [if_neg hp] at h
      cases hf : findSub pat rest with
      | none => rw [hf] at h; cases h
      | some k2 =>
        rw [hf] at h
        simp only [Option.map_some'] at h
        injection h with h0
        subst h0
        simpa using ih hf

theorem containsSub_iff {pat t : Chars} :
    containsSub pat t = true ↔ ∃ k, isPref pat (t.drop k) = true := by
  constructor
  · intro h
    rw [containsSub, Option.isSome_iff_exists] at h
    obtain ⟨k, hk⟩ := h
    exact ⟨k, findSub_isPref hk⟩
  · rintro ⟨k, hk⟩
    induction t generalizing k with
    | nil =>
      have : isPref pat [] = true := by simpa using hk
      simp [containsSub, findSub, this]
    | cons c rest ih =>
      cases k with
      | zero =>
        have : isPref pat (c :: rest) = true := by simpa using hk
        simp [containsSub, findSub, this]
      | succ k2 =>
        have hk2 : isPref pat (rest.drop k2) = true := by simpa using hk
        have := ih k2 hk2
        rw [containsSub, findSub]
        by_cases hp : isPref pat (c :: rest) = true
        · rw [if_pos hp]; rfl
        · rw [if_neg hp]
          rw [containsSub] at this
          simpa using this

theorem findSub_first {c : Char} {p pre rest : Chars}
    (hpre : ∀ x ∈ pre, x ≠ c) (h : isPref (c :: p) rest = true) :
    findSub (c :: p) (pre ++ rest) = some pre.length := by
  induction pre with
  | nil =>
    obtain ⟨r, rfl⟩ := isPref_iff_append.1 h
    have hcond : isPref (c :: p) (c :: (p ++ r)) = true := by
      have := isPref_append_self (c :: p) r
      rwa [List.cons_append] at this
    rw [List.nil_append, List.cons_append, findSub, if_pos hcond]
    rfl
  | cons a pre2 ih =>
    have hac : ¬(c = a) := fun hca => hpre a (List.mem_cons_self a pre2) hca.symm
    have hnp : ¬(isPref (c :: p) (a :: (pre2 ++ rest)) = true) := by
      rw [isPref, if_neg hac]
      simp
    rw [List.cons_append, findSub, if_neg hnp,
      ih (fun x hx => hpre x (List.mem_cons_of_mem a hx)) ]
    rfl

theorem findSub_none_of_head {c : Char} {p t : Chars} (h : ∀ x ∈ t, x ≠ c) :
    findSub (c :: p) t = none := by
  induction t with
  | nil => simp [findSub, isPref]
  | cons a rest ih =>
    have hac : ¬(c = a) := fun hca => h a (List.mem_cons_self a rest) hca.symm
    have hnp : ¬(isPref (c :: p) (a :: rest) = true) := by
      rw [isPref, if_neg hac]
      simp
    rw [findSub, if_neg hnp, ih (fun x hx => h x (List.mem_cons_of_mem a hx))]
    rfl

theorem findSub_append_of_window {pat xs : Chars} (ys : Chars) {k : Nat}
    (h : findSub pat xs = some k) (hw : k + pat.length ≤ xs.length) :
    findSub pat (xs ++ ys) = some k := by
  induction xs generalizing k with
  | nil =>
    rw [findSub] at h
    by_cases hp : isPref pat [] = true
    · rw [if_pos hp] at h
      injection h with h0
      subst h0
      have : pat = [] := by
        have := isPref_length_le hp
        simpa using List.length_eq_zero.1 (Nat.le_zero.1 this)
      subst this
      simpa using findSub_nil_pat ys
    · rw [if_neg hp] at h
      cases h
  | cons x xs2 ih =>
    rw [findSub] at h
    by_cases hp : isPref pat (x :: xs2) = true
    · rw [if_pos hp] at h
      injection h with h0
      subst h0
      rw [List.cons_append, findSub,
        if_pos (by simpa using isPref_append_right ys hp)]
    · rw [if_neg hp] at h
      cases hf : findSub pat xs2 with
      | none => rw [hf] at h; cases h
      | some k2 =>
        rw [hf] at h
        simp only [Option.map_some'] at h
        injection h with h0
        subst h0
        have hw2 : k2 + pat.length ≤ xs2.length := by
          simpa using Nat.succ_le_succ_iff.1 (by simpa [Nat.succ_add] using hw)
        have hlen : pat.length ≤ (x :: xs2).length := by
          simp only [List.length_cons]
          omega
        have hnp2 : ¬(isPref pat (x :: (xs2 ++ ys)) = true) := fun hyp =>
          hp (isPref_of_append_left hlen (by rwa [List.cons_append]))
        rw [List.cons_append, findSub, if_neg hnp2, ih hf hw2]
        rfl

theorem findSub_first' {pat pre rest : Chars} (hne : pat ≠ [])
    (hpre : ∀ x ∈ pre, x ≠ pat.headI) (h : isPref pat rest = true) :
    findSub pat (pre ++ rest) = some pre.length := by
  cases pat with
  | nil => exact absurd rfl hne
  | cons c p => exact findSub_first (by simpa [List.headI] using hpre) h

theorem findSub_none_of_head' {pat t : Chars} (hne : pat ≠ [])
    (h : ∀ x ∈ t, x ≠ pat.headI) : findSub pat t = none := by
  cases pat with
  | nil => exact absurd rfl hne
  | cons c p => exact findSub_none_of_head (by simpa [List.headI] using h)

theorem splitOnChar_no_sep {sep : Char} {t : Chars} (h : ∀ x ∈ t, x ≠ sep) :
    splitOnChar sep t = [t] := by
  induction t with
  | nil => rfl
  | cons c rest ih =>
    have hcs : ¬(c = sep) := h c (List.mem_cons_self c rest)
    rw [splitOnChar, if_neg hcs, ih (fun x hx => h x (List.mem_cons_of_mem c hx))]

theorem containsSub_of_middle {pat x : Chars} (a b : Chars)
    (h : containsSub pat x = true) : containsSub pat (a ++ (x ++ b)) = true := by
  obtain ⟨k, hk⟩ := containsSub_iff.1 h
  by_cases hkx : k ≤ x.length
  · refine containsSub_iff.2 ⟨a.length + k, ?_⟩
    rw [List.drop_append, List.drop_append_of_le_length hkx]
    exact isPref_append_right b hk
  · have hnil : x.drop k = [] := List.drop_of_length_le (by omega)
    rw [hnil] at hk
    have : pat = [] := by
      have := isPref_length_le hk
      simpa using List.length_eq_zero.1 (Nat.le_zero.1 this)
    subst this
    simp [containsSub, findSub_nil_pat]

theorem containsSub_head_ne_nil {c : Char} {p x : Chars}
    (h : containsSub (c :: p) x = true) : x ≠ [] := by
  rintro rfl
  obtain ⟨k, hk⟩ := containsSub_iff.1 h
  simp [isPref] at hk

theorem containsSub_length_le {pat x : Chars} (h : containsSub pat x = true) :
    pat.length ≤ x.length := by
  obtain ⟨k, hk⟩ := containsSub_iff.1 h
  have := isPref_length_le hk
  have := List.length_drop k x
  omega

/-! ## Parser reduction lemmas for the third marker pair -/

theorem psb_quote (tail : Chars) : parseStringBody ('"' :: tail) = some ([], tail) := by
  rw [parseStringBody.eq_def]
  simp

theorem psb_cons {c : Char} (tail : Chars) (h1 : ¬(c = '"')) (h2 : ¬(c = '\\'))
    (h3 : ¬(c.toNat < 32)) :
    parseStringBody (c :: tail) =
      (match parseStringBody tail with
       | some (s, r) => some (c :: s, r)
       | none => none) := by
  rw [parseStringBody.eq_def]
  simp [h1, h2, h3]

theorem psb_errors (tail : Chars) :
    parseStringBody (("errors\":[".data) ++ tail) =
      some (("errors".data), ':' :: '[' :: tail) := by
  have hx : ("errors\":[".data) ++ tail =
      'e' :: 'r' :: 'r' :: 'o' :: 'r' :: 's' :: '"' :: ':' :: '[' :: tail := rfl
  rw [hx, psb_cons _ (by decide) (by decide) (by decide),
    psb_cons _ (by decide) (by decide) (by decide),
    psb_cons _ (by decide) (by decide) (by decide),
    psb_cons _ (by decide) (by decide) (by decide),
    psb_cons _ (by decide) (by decide) (by decide),
    psb_cons _ (by decide) (by decide) (by decide), psb_quote]

theorem parseValue_pat3 (n : Nat) (tail : Chars) :
    parseValue (n + 1) (pat3Start ++ tail) =
      some (.str ("errors".data), ':' :: '[' :: tail) := by
  have hx : pat3Start ++ tail = '"' :: (("errors\":[".data) ++ tail) := rfl
  have hstep : parseValue (n + 1) ('"' :: (("errors\":[".data) ++ tail)) =
      (match parseStringBody (("errors\":[".data) ++ tail) with
       | some (s, r) => some (Json.str s, r)
       | none => none) := rfl
  rw [hx, hstep, psb_errors]

/-- The fragment spanned by the third marker pair starts with
`"errors":[`; `serde_json` parses the leading `"errors"` as a complete
JSON string and fails on the trailing `:[...`, so the structured decode
can never succeed there. -/
theorem decode_pat3_none {s : Chars} (h : isPref pat3Start s = true) :
    decodeValidationErrorDetails s = none := by
  obtain ⟨r, rfl⟩ := isPref_iff_append.1 h
  have hfuel : 4 * (pat3Start ++ r).length + 16 = (4 * (pat3Start ++ r).length + 15) + 1 := by
    omega
  have hjson : json_from_str (pat3Start ++ r) = none := by
    rw [json_from_str, hfuel, parseValue_pat3]
    rfl
  simp only [decodeValidationErrorDetails, hjson]

/-- When neither the first nor the second opening marker occurs, the
extractor agrees with the bare heuristic scan: the third marker pair can
only fail its structured decode, after which the heuristic result (or
nothing) is returned either way. -/
theorem extract_eq_manual_of_no12 {t : Chars}
    (h1 : findSub pat1Start t = none) (h2 : findSub pat2Start t = none) :
    extract_json_from_string t = manual_extract_errors t := by
  simp only [extract_json_from_string, jsonPatterns, extractLoop, h1, h2]
  cases hf3 : findSub pat3Start t with
  | none => simp only []
  | some s =>
    simp only []
    cases hf3e : findSub pat3End (t.drop (s + pat3Start.length)) with
    | none => simp only []
    | some rel =>
      simp only []
      have hpref : isPref pat3Start
          ((t.drop s).take (pat3Start.length + rel + pat3End.length)) = true := by
        refine isPref_take (findSub_isPref hf3) ?_
        omega
      rw [decode_pat3_none hpref]
      cases hm : manual_extract_errors t with
      | none => simp only []
      | some errs => simp only []

/-- A marker pair that is not found — opening marker absent, or no
closing marker after it — is skipped by the loop. -/
theorem pairSpan_none_skip {t sp ep : Chars} {rest : List (Chars × Chars)}
    (h : pairSpan sp ep t = none) :
    extractLoop t ((sp, ep) :: rest) = extractLoop t rest := by
  cases hf : findSub sp t with
  | none => simp only [extractLoop, hf]
  | some s =>
    simp only [pairSpan, hf] at h
    cases hfe : findSub ep (t.drop (s + sp.length)) with
    | none => simp only [extractLoop, hf, hfe]
    | some rel =>
      simp only [hfe] at h
      exact Option.noConfusion h

/-- For a found marker pair the loop decodes the spanned fragment, and on
failure consults the heuristic scan before moving on. -/
theorem pairSpan_some_found {t sp ep : Chars} {rest : List (Chars × Chars)} {s rel : Nat}
    (h : pairSpan sp ep t = some (s, rel)) :
    extractLoop t ((sp, ep) :: rest) =
      (match decodeValidationErrorDetails
          ((t.drop s).take (sp.length + rel + ep.length)) with
       | some errs => some errs
       | none =>
         match manual_extract_errors t with
         | some errs => some errs
         | none => extractLoop t rest) := by
  cases hf : findSub sp t with
  | none =>
    simp only [pairSpan, hf] at h
    exact Option.noConfusion h
  | some s2 =>
    simp only [pairSpan, hf] at h
    cases hfe : findSub ep (t.drop (s2 + sp.length)) with
    | none =>
      simp only [hfe] at h
      exact Option.noConfusion h
    | some rel2 =>
      simp only [hfe, Option.some.injEq, Prod.mk.injEq] at h
      obtain ⟨hs, hrel⟩ := h
      subst hs
      subst hrel
      simp only [extractLoop, hf, hfe]

/-- When no pair in the list is found, the loop falls through to the
heuristic scan. -/
theorem extractLoop_all_none {t : Chars} :
    ∀ ps : List (Chars × Chars), (∀ p ∈ ps, pairSpan p.1 p.2 t = none) →
      extractLoop t ps = manual_extract_errors t := by
  intro ps
  induction ps with
  | nil => intro _; rfl
  | cons p rest ih =>
    intro h
    obtain ⟨sp, ep⟩ := p
    rw [pairSpan_none_skip (h (sp, ep) (List.mem_cons_self _ _))]
    exact ih (fun q hq => h q (List.mem_cons_of_mem _ hq))

/-- The loop skips every leading pattern whose pair is not found. -/
theorem extractLoop_skip_not_found {t : Chars} :
    ∀ ps1 : List (Chars × Chars), (∀ p ∈ ps1, pairSpan p.1 p.2 t = none) →
      ∀ rest, extractLoop t (ps1 ++ rest) = extractLoop t rest := by
  intro ps1
  induction ps1 with
  | nil => intro _ rest; rfl
  | cons p ps ih =>
    intro h rest
    obtain ⟨sp, ep⟩ := p
    rw [List.cons_append, pairSpan_none_skip (h (sp, ep) (List.mem_cons_self _ _))]
    exact ih (fun q hq => h q (List.mem_cons_of_mem _ hq)) rest

/-! ## Helper lemmas for the success path and the dispatcher -/

theorem decodeStrings_map (ls : List Chars) :
    decodeStrings (ls.map Json.str) = Except.ok ls := by
  induction ls with
  | nil => rfl
  | cons a as ih => simp [decodeStrings, ih, decodeStringJson]

theorem decodeStringList_map (ls : List Chars) :
    decodeStringListJson (.arr (ls.map .str)) = .ok ls := by
  simp [decodeStringListJson, decodeStrings_map]

theorem decodeI32_bounds {v : Json} {n : Int} (h : decodeI32 v = .ok n) :
    -(2 ^ 31) ≤ n ∧ n < 2 ^ 31 := by
  cases v with
  | num x =>
    rw [decodeI32] at h
    by_cases he : 0 ≤ x.exp
    · rw [if_pos he] at h
      by_cases hc : -(2 ^ 31) ≤ x.mant * 10 ^ x.exp.toNat ∧
          x.mant * 10 ^ x.exp.toNat < 2 ^ 31
      · rw [if_pos hc] at h
        injection h with h0
        subst h0
        exact hc
      · rw [if_neg hc] at h
        cases h
    · rw [if_neg he] at h
      cases h
  | null => cases h
  | bool b => cases h
  | str s => cases h
  | arr xs => cases h
  | obj fs => cases h

theorem decodeI32_intCast {n : Int} (h1 : -(2 ^ 31) ≤ n) (h2 : n < 2 ^ 31) :
    decodeI32 (.num ⟨n, 0⟩) = .ok n := by
  rw [decodeI32, if_pos (by simp)]
  simp only [Int.toNat_zero, pow_zero, mul_one]
  rw [if_pos ⟨h1, h2⟩]

theorem foldl_append_acc (g : ValidationError → Chars) :
    ∀ (errs : List ValidationError) (acc : Chars),
      errs.foldl (fun a e => a ++ g e) acc = acc ++ errs.foldl (fun a e => a ++ g e) [] := by
  intro errs
  induction errs with
  | nil => intro acc; simp
  | cons e es ih =>
    intro acc
    rw [List.foldl_cons, List.foldl_cons, ih (acc ++ g e), ih ([] ++ g e)]
    simp [List.append_assoc]

theorem append_ne_of_take_ne {p q : Chars} (n : Nat) (hn1 : n ≤ p.length)
    (hn2 : n ≤ q.length) (hne : ¬(p.take n = q.take n)) (a b : Chars) :
    ¬(p ++ a = q ++ b) := by
  intro h
  apply hne
  have := congrArg (List.take n) h
  rwa [List.take_append_of_le_length hn1, List.take_append_of_le_length hn2] at this

theorem decodeOFS_ok_bounds {j : Json} {o : ExcedenciaOutputForSchema}
    (h : decodeExcedenciaOutputForSchema j = Except.ok o) :
    -(2 ^ 31) ≤ o.importe_mensual ∧ o.importe_mensual < 2 ^ 31 := by
  cases j <;> simp only [decodeExcedenciaOutputForSchema] at h <;> try (cases h)
  case obj fields =>
    repeat' split at h
    all_goals try (cases h)
    all_goals exact decodeI32_bounds (by assumption)

theorem decodeResponse_ok_bounds {raw : Json} {resp : ExcedenciaResponse}
    (h : decodeExcedenciaResponse raw = Except.ok resp) :
    -(2 ^ 31) ≤ resp.output.importe_mensual ∧ resp.output.importe_mensual < 2 ^ 31 := by
  cases raw <;> simp only [decodeExcedenciaResponse] at h <;> try (cases h)
  case obj fields =>
    repeat' split at h
    all_goals try (cases h)
    all_goals exact decodeOFS_ok_bounds (by assumption)

theorem decodeOFS_roundtrip (o : ExcedenciaOutputForSchema)
    (hlo : -(2 ^ 31) ≤ o.importe_mensual) (hhi : o.importe_mensual < 2 ^ 31) :
    decodeExcedenciaOutputForSchema (outputForSchemaToJson o) = .ok o := by
  have key : decodeExcedenciaOutputForSchema (outputForSchemaToJson o) =
      (match decodeI32 (.num ⟨o.importe_mensual, 0⟩) with
       | .error e => .error e
       | .ok importe =>
         match decodeStringListJson (.arr (o.errores.map .str)) with
         | .error e => .error e
         | .ok errs =>
           match decodeStringListJson (.arr (o.advertencias.map .str)) with
           | .error e => .error e
           | .ok advs =>
             .ok ⟨o.descripcion, importe, o.requisitos_adicionales, o.supuesto,
               o.tiene_derecho_potencial, errs, advs⟩) := rfl
  rw [key, decodeI32_intCast hlo hhi, decodeStringList_map, decodeStringList_map]

theorem decodeOutput_roundtrip (o : ExcedenciaOutputForSchema)
    (hlo : -(2 ^ 31) ≤ o.importe_mensual) (hhi : o.importe_mensual < 2 ^ 31) :
    decodeExcedenciaOutput (outputForSchemaToJson o) =
      .ok ⟨o.descripcion, o.importe_mensual, o.requisitos_adicionales, o.supuesto,
        o.tiene_derecho_potencial, o.errores, o.advertencias⟩ := by
  simp only [decodeExcedenciaOutput, decodeOFS_roundtrip o hlo hhi]

/-! ## Claim theorems -/

/-- Claim C4 (confirmed): for every engine failure whose diagnostic texts
contain none of the three recognized markers and not the phrase
"is not one of", the salvage extractor recovers zero validation issues,
the failure is classified as the opaque engine-internal variant
(`ZenEngineError`, not the validation variant), and its rendering
surfaces the failure's own textual description unmodified after the fixed
prefix. -/
theorem c4_non_validation_opacity (e : EvaluationErrorModel)
    (h : ∀ t ∈ debugTextsOf e, noMarkersNoPhrase t) :
    extract_validation_errors e = none ∧
    classifyEngineFailure e = .zenEngineError e ∧
    displayExcedenciaError (classifyEngineFailure e) =
      ("Error del motor de decisión: ".data) ++ e.displayText := by
  have hex : ∀ t, noMarkersNoPhrase t → extract_json_from_string t = none := by
    intro t ht
    obtain ⟨h1, h2, _h3, h4⟩ := ht
    rw [extract_eq_manual_of_no12 h1 h2, manual_extract_errors,
      if_neg (by simp [h4])]
  have hnone : extract_validation_errors e = none := by
    cases hsd : e.sourceDebug with
    | none =>
      have hf := h e.fullDebug (by simp [debugTextsOf, hsd])
      simp [extract_validation_errors, hsd, hex _ hf]
    | some s =>
      have hs := h s (by simp [debugTextsOf, hsd])
      have hf := h e.fullDebug (by simp [debugTextsOf, hsd])
      simp [extract_validation_errors, hsd, hex _ hs, hex _ hf]
  refine ⟨hnone, ?_, ?_⟩
  · simp [classifyEngineFailure, hnone]
  · simp [classifyEngineFailure, hnone, displayExcedenciaError]

/-- Witness for C4 at a concrete markerless engine failure. -/
theorem c4_witness :
    extract_validation_errors
      ⟨some ("node: boom".data), ("debug: boom".data), ("boom".data)⟩ = none ∧
    classifyEngineFailure
      ⟨some ("node: boom".data), ("debug: boom".data), ("boom".data)⟩ =
      .zenEngineError ⟨some ("node: boom".data), ("debug: boom".data), ("boom".data)⟩ ∧
    displayExcedenciaError (classifyEngineFailure
      ⟨some ("node: boom".data), ("debug: boom".data), ("boom".data)⟩) =
      ("Error del motor de decisión: ".data) ++ ("boom".data) :=
  c4_non_validation_opacity
    ⟨some ("node: boom".data), ("debug: boom".data), ("boom".data)⟩ (by decide)

/-- Claim C5 (confirmed): the boolean field decoder passes native booleans
through; the strings "true"/"True"/"TRUE" and "false" decode
case-insensitively to the corresponding boolean; every other string fails
with a decoding error naming the offending literal; and neither null nor
absence is accepted for the mandatory boolean field. -/
theorem c5_bool_decoder :
    (∀ b, deserialize_bool_or_string (.bool b) = .ok b) ∧
    deserialize_bool_or_string (.str ("true".data)) = .ok true ∧
    deserialize_bool_or_string (.str ("True".data)) = .ok true ∧
    deserialize_bool_or_string (.str ("TRUE".data)) = .ok true ∧
    deserialize_bool_or_string (.str ("false".data)) = .ok false ∧
    (∀ s : Chars, ¬(lowerAscii s = ("true".data)) → ¬(lowerAscii s = ("false".data)) →
      deserialize_bool_or_string (.str s) =
        .error (("invalid boolean string: ".data) ++ s)) ∧
    deserialize_bool_or_string .null =
      .error ("invalid type, expected bool or string".data) ∧
    decodeExcedenciaDirectParams
      (.obj [(("parentesco".data), .str ("madre".data)),
             (("situacion".data), .str ("parto".data)),
             (("numero_hijos".data), .num ⟨1, 0⟩)]) =
      .error ("missing field familia_monoparental".data) := by
  refine ⟨fun b => rfl, by decide, by decide, by decide, by decide, ?_, rfl, by decide⟩
  intro s h1 h2
  simp [deserialize_bool_or_string, h1, h2]

/-- Witness for C5 at the string "maybe". -/
theorem c5_witness :
    deserialize_bool_or_string (.str ("maybe".data)) =
      .error (("invalid boolean string: ".data) ++ ("maybe".data)) :=
  c5_bool_decoder.2.2.2.2.2.1 ("maybe".data) (by decide) (by decide)

/-- Claim C6 (counterexample): a parameter object omitting `numero_hijos`
does not decode to "no value" — the decode fails with a missing-field
error, because `#[serde(deserialize_with = ...)]` without
`#[serde(default)]` makes serde reject a missing field even for an
`Option` field. -/
theorem c6_counterexample :
    decodeExcedenciaDirectParams
      (.obj [(("parentesco".data), .str ("madre".data)),
             (("situacion".data), .str ("parto".data)),
             (("familia_monoparental".data), .bool false)]) =
      .error ("missing field numero_hijos".data) := by decide

/-- Claim C6 (corrected): 3, 3.0 and "3" all decode to the same numeric
value 3; explicit null decodes to "no value"; "abc" fails with an error
naming the literal; but omission of the field is a missing-field decoding
error rather than "no value". -/
theorem c6_numeric_decoder :
    (json_from_str ("3".data)).map deserialize_f64_or_string =
      some (.ok (some ⟨3, 0⟩)) ∧
    (json_from_str ("3.0".data)).map deserialize_f64_or_string =
      some (.ok (some ⟨3, 0⟩)) ∧
    deserialize_f64_or_string (.num ⟨3, 0⟩) = .ok (some ⟨3, 0⟩) ∧
    deserialize_f64_or_string (.str ("3".data)) = .ok (some ⟨3, 0⟩) ∧
    deserialize_f64_or_string .null = .ok none ∧
    deserialize_f64_or_string (.str ("abc".data)) =
      .error (("invalid number string: ".data) ++ ("abc".data)) ∧
    decodeExcedenciaDirectParams
      (.obj [(("parentesco".data), .str ("madre".data)),
             (("situacion".data), .str ("parto".data)),
             (("familia_monoparental".data), .bool false),
             (("numero_hijos".data), .null)]) =
      .ok ⟨("madre".data), ("parto".data), false, none⟩ ∧
    decodeExcedenciaDirectParams
      (.obj [(("parentesco".data), .str ("madre".data)),
             (("situacion".data), .str ("parto".data)),
             (("familia_monoparental".data), .bool false)]) =
      .error ("missing field numero_hijos".data) := by
  exact ⟨by decide, by decide, by decide, by decide, rfl, by decide, by decide, by decide⟩

/-- Claim C7 (confirmed): shaping a flat scenario input into the nested
engine request and reading the caller-facing input echo of the response
back yields a value equal to the original input.  The echo itself is
produced by the ruleset (not in the source tree) and is modelled from the
spec as returning the request's input envelope. -/
theorem c7_round_trip (p : ExcedenciaDirectParams) :
    (engineInputEcho (requestOfDirectParams p)).map directParamsOfInput = some p := by
  cases p
  rfl

/-- Claim C8 (confirmed): on the success path the response deserialized
from the engine's raw result is returned unchanged — the internal
round-trip through `ExcedenciaOutput` rebuilds exactly the output fields
first deserialized, so the outcome is constructed once and never
mutated. -/
theorem c8_outcome_frame (raw : Json) (resp : ExcedenciaResponse)
    (h : decodeExcedenciaResponse raw = .ok resp) :
    evaluate_excedencia_success raw = .ok resp := by
  obtain ⟨hlo, hhi⟩ := decodeResponse_ok_bounds h
  simp only [evaluate_excedencia_success, h, decodeOutput_roundtrip resp.output hlo hhi]

/-- Witness for C8 at a concrete engine result. -/
theorem c8_witness :
    evaluate_excedencia_success
      (.obj [(("output".data), outputForSchemaToJson
        ⟨("desc".data), 725, ("".data), ("A".data), true, [], []⟩)]) =
      .ok ⟨⟨("desc".data), 725, ("".data), ("A".data), true, [], []⟩, none, none⟩ :=
  c8_outcome_frame _ _ (by decide)

/-- Claim C9 (confirmed): a failure of the isolated execution unit is
surfaced as a distinct "Error interno" report whose text coincides with no
validation report and no evaluation-failure report, and every joined
outcome is answered with `Ok` — no failure propagates as an unhandled
abort of the tool call. -/
theorem c9_internal_failure :
    (∀ x, ∃ r, evaluar_supuesto_excedencia x = .ok r) ∧
    (∀ je : Chars, evaluar_supuesto_excedencia (.error je) =
      .ok (.error [("Error interno: ".data) ++ je])) ∧
    (∀ je : Chars, ∀ errs : List ValidationError,
      ¬(("Error interno: ".data) ++ je = renderValidationErrorsMsg errs)) ∧
    (∀ je d : Chars,
      ¬(("Error interno: ".data) ++ je = ("Error al evaluar: ".data) ++ d)) := by
  refine ⟨?_, fun je => rfl, ?_, ?_⟩
  · intro x
    match x with
    | .ok (.ok r) => exact ⟨_, rfl⟩
    | .ok (.error (.validationError errs)) => exact ⟨_, rfl⟩
    | .ok (.error (.zenEngineError e)) => exact ⟨_, rfl⟩
    | .ok (.error (.serializationError m)) => exact ⟨_, rfl⟩
    | .error je => exact ⟨_, rfl⟩
  · intro je errs
    rw [renderValidationErrorsMsg, foldl_append_acc _ errs _]
    exact append_ne_of_take_ne 6 (by decide) (by decide) (by decide) je _
  · intro je d
    exact append_ne_of_take_ne 7 (by decide) (by decide) (by decide) je d

/-- Witness for C9 at a concrete join error. -/
theorem c9_witness :
    evaluar_supuesto_excedencia (.error ("boom".data)) =
      .ok (.error [("Error interno: ".data) ++ ("boom".data)]) ∧
    ¬(("Error interno: ".data) ++ ("boom".data) =
      renderValidationErrorsMsg [⟨("m".data), ("p".data)⟩]) :=
  ⟨c9_internal_failure.2.1 ("boom".data),
   c9_internal_failure.2.2.1 ("boom".data) [⟨("m".data), ("p".data)⟩]⟩

/-- Claim C10 (confirmed): the structured decode attempted on the third
marker pair's fragment never succeeds — it starts with `"errors":[`, which
cannot deserialize as the validation envelope — so whenever only that
marker could be present (the first two are absent), the extractor's
result is exactly the heuristic comma-split scan's result. -/
theorem c10_third_marker_never_decodes :
    (∀ s : Chars, isPref pat3Start s = true → decodeValidationErrorDetails s = none) ∧
    (∀ t : Chars, findSub pat1Start t = none → findSub pat2Start t = none →
      extract_json_from_string t = manual_extract_errors t) :=
  ⟨fun _ h => decode_pat3_none h, fun _ h1 h2 => extract_eq_manual_of_no12 h1 h2⟩

/-- Witness for C10 at concrete inputs. -/
theorem c10_witness :
    decodeValidationErrorDetails ("\"errors\":[x]".data) = none ∧
    extract_json_from_string ("enum x is not one of, \"message\":\"vv\"".data) =
      manual_extract_errors ("enum x is not one of, \"message\":\"vv\"".data) :=
  ⟨c10_third_marker_never_decodes.1 ("\"errors\":[x]".data) (by decide),
   c10_third_marker_never_decodes.2 _ (by decide) (by decide)⟩

/-- Claim C1 (counterexample): on `c1text`, the source's extractor returns
the heuristic scan's issue immediately after the first marker pair's
decode fails, although the second marker pair's fragment decodes
successfully — the heuristic scan is reached before structured decoding
has been attempted at every found marker pair, so the source cascade and
the cascade as the claim words it disagree here. -/
theorem c1_counterexample :
    extract_json_from_string c1text = some [⟨("WRONG".data), ("WRONGPATH".data)⟩] ∧
    extract_json_as_specified c1text = some [⟨("m2".data), ("p2".data)⟩] ∧
    ¬(extract_json_from_string c1text = extract_json_as_specified c1text) :=
  ⟨by decide, by decide, by decide⟩

/-- Claim C1 (corrected): for the first marker pair found — the first
pattern in priority order whose opening marker occurs and whose closing
marker occurs after it (a pair with no closer counts as not found) — the
extracted fragment is decoded as the structured envelope and, on success,
its error list is returned; but on decode failure the heuristic
comma-split scan is reached immediately — its result, if any, is returned
before structured decoding is attempted at any later marker pair; only
when no marker pair is found at all is the heuristic scan the sole
strategy. -/
theorem c1_first_marker_flow :
    (∀ t ps1 sp ep ps2 s rel,
      jsonPatterns = ps1 ++ (sp, ep) :: ps2 →
      (∀ p ∈ ps1, pairSpan p.1 p.2 t = none) →
      pairSpan sp ep t = some (s, rel) →
      ((∀ es, decodeValidationErrorDetails
          ((t.drop s).take (sp.length + rel + ep.length)) = some es →
        extract_json_from_string t = some es) ∧
       (decodeValidationErrorDetails
          ((t.drop s).take (sp.length + rel + ep.length)) = none →
        ∀ es, manual_extract_errors t = some es →
        extract_json_from_string t = some es))) ∧
    (∀ t, (∀ p ∈ jsonPatterns, pairSpan p.1 p.2 t = none) →
      extract_json_from_string t = manual_extract_errors t) := by
  constructor
  · intro t ps1 sp ep ps2 s rel hpat hskip hfound
    have hbase : extract_json_from_string t =
        (match decodeValidationErrorDetails
            ((t.drop s).take (sp.length + rel + ep.length)) with
         | some errs => some errs
         | none =>
           match manual_extract_errors t with
           | some errs => some errs
           | none => extractLoop t ps2) := by
      rw [extract_json_from_string, hpat, extractLoop_skip_not_found ps1 hskip,
        pairSpan_some_found hfound]
    constructor
    · intro es hd
      rw [hbase, hd]
    · intro hd es hm
      rw [hbase, hd, hm]
  · intro t h
    rw [extract_json_from_string]
    exact extractLoop_all_none jsonPatterns h

/-- Witness for C1: the corrected flow applied to a text whose first found
marker pair is the second pattern (pattern 1's opening marker is absent),
whose fragment decodes successfully. -/
theorem c1_witness :
    extract_json_from_string c1envelope = some [⟨("m2".data), ("p2".data)⟩] :=
  (c1_first_marker_flow.1 c1envelope [(pat1Start, pat1End)] pat2Start pat2End
    [(pat3Start, pat3End)] 0 54 rfl (by decide) (by decide)).1 _ (by decide)

/-- Claim C2 (counterexample): `c2text` contains the claim's well-formed
validation envelope fragment (which decodes to the one-element issue
list), but the surrounding noise — a bare opening-marker prefix — derails
all three marker scans and the extractor recovers nothing, so the result
is not independent of the noise. -/
theorem c2_counterexample :
    containsSub c2frag c2text = true ∧
    decodeValidationErrorDetails c2frag = some [⟨("m".data), ("p".data)⟩] ∧
    extract_json_from_string c2text = none :=
  ⟨by decide, by decide, by decide⟩

/-- Claim C2 (corrected): the extractor recovers exactly the fragment's
one-element issue list for every embedding whose leading noise contains no
opening brace (so the fragment's own opening marker is the first one
found); the trailing noise is arbitrary. -/
theorem c2_salvage_with_clean_noise (pre post : Chars)
    (hpre : ∀ c ∈ pre, c ≠ '\x7b') :
    extract_json_from_string (pre ++ (c2frag ++ post)) =
      some [⟨("m".data), ("p".data)⟩] := by
  have hsplit : c2frag = pat1Start ++ (c2mid ++ pat1End) := by decide
  have hf1 : findSub pat1Start (pre ++ (c2frag ++ post)) = some pre.length := by
    refine findSub_first' (by decide) (fun x hx => hpre x hx) ?_
    rw [hsplit, List.append_assoc]
    exact isPref_append_self _ _
  have hdrop : (pre ++ (c2frag ++ post)).drop (pre.length + pat1Start.length) =
      c2mid ++ (pat1End ++ post) := by
    rw [hsplit]
    rw [show pre ++ ((pat1Start ++ (c2mid ++ pat1End)) ++ post) =
        (pre ++ pat1Start) ++ (c2mid ++ (pat1End ++ post)) from by
      simp [List.append_assoc]]
    exact List.drop_left' (by simp)
  have hf2 : findSub pat1End
      ((pre ++ (c2frag ++ post)).drop (pre.length + pat1Start.length)) = some 30 := by
    rw [hdrop]
    have base : findSub pat1End (c2mid ++ pat1End) = some 30 := by decide
    have hw : findSub pat1End ((c2mid ++ pat1End) ++ post) = some 30 :=
      findSub_append_of_window post base (by decide)
    rwa [List.append_assoc] at hw
  have hcand : ((pre ++ (c2frag ++ post)).drop pre.length).take
      (pat1Start.length + 30 + pat1End.length) = c2frag := by
    rw [List.drop_left]
    exact List.take_left' (by decide)
  have hdec : decodeValidationErrorDetails c2frag = some [⟨("m".data), ("p".data)⟩] := by
    decide
  simp only [extract_json_from_string, jsonPatterns, extractLoop, hf1, hf2, hcand, hdec]

/-- Witness for C2 at a concrete clean embedding. -/
theorem c2_witness :
    extract_json_from_string (("noise: ".data) ++ (c2frag ++ (" tail".data))) =
      some [⟨("m".data), ("p".data)⟩] :=
  c2_salvage_with_clean_noise ("noise: ".data) (" tail".data) (by decide)

/-- Claim C3 (counterexample): `c3text` contains the fragment
`"message":"a is not one of [1,2]"` and no decodable envelope, yet the
extractor recovers nothing — the text is split on commas before fragment
matching, the comma inside the quoted message truncates its piece, and no
closing quote is found, so no issue is synthesized. -/
theorem c3_counterexample :
    containsSub ("\"message\":\"a is not one of [1,2]\"".data) c3text = true ∧
    containsSub phraseIsNotOneOf c3text = true ∧
    extract_json_from_string c3text = none :=
  ⟨by decide, by decide, by decide⟩

/-- Claim C3 (corrected): for a diagnostic text embedding the fragment
`"message":"<msg>"` where the quoted message contains "is not one of" but
no comma, quote or brace, where the surrounding text brings no comma,
brace, or quote before the fragment, and where no `"path":"` fragment
occurs, the extractor recovers exactly one issue carrying the full quoted
message and the sentinel path `/input/unknown` (the spec's "unknown input
location" sentinel). -/
theorem c3_heuristic_fallback (pre msg post : Chars)
    (hpre : ∀ c ∈ pre, c ≠ '"' ∧ c ≠ ',' ∧ c ≠ '\x7b')
    (hmsg : ∀ c ∈ msg, c ≠ '"' ∧ c ≠ ',' ∧ c ≠ '\x7b')
    (hpost : ∀ c ∈ post, c ≠ ',' ∧ c ≠ '\x7b')
    (hphrase : containsSub phraseIsNotOneOf msg = true)
    (hpath : findSub pathKeyFind (pre ++ (msgKeyFind ++ (msg ++ ('"' :: post)))) = none) :
    extract_json_from_string (pre ++ (msgKeyFind ++ (msg ++ ('"' :: post)))) =
      some [⟨msg, sentinelPath⟩] := by
  have hbrace : ∀ x ∈ pre ++ (msgKeyFind ++ (msg ++ ('"' :: post))), x ≠ '\x7b' := by
    intro x hx
    rcases List.mem_append.1 hx with h | h
    · exact (hpre x h).2.2
    rcases List.mem_append.1 h with h | h
    · exact (by decide : ∀ y ∈ msgKeyFind, y ≠ '\x7b') x h
    rcases List.mem_append.1 h with h | h
    · exact (hmsg x h).2.2
    rcases List.mem_cons.1 h with h | h
    · subst h; decide
    · exact (hpost x h).2
  have h1 : findSub pat1Start (pre ++ (msgKeyFind ++ (msg ++ ('"' :: post)))) = none :=
    findSub_none_of_head' (by decide) (fun x hx => hbrace x hx)
  have h2 : findSub pat2Start (pre ++ (msgKeyFind ++ (msg ++ ('"' :: post)))) = none :=
    findSub_none_of_head' (by decide) (fun x hx => hbrace x hx)
  rw [extract_eq_manual_of_no12 h1 h2]
  have hcomma : ∀ x ∈ pre ++ (msgKeyFind ++ (msg ++ ('"' :: post))), x ≠ ',' := by
    intro x hx
    rcases List.mem_append.1 hx with h | h
    · exact (hpre x h).2.1
    rcases List.mem_append.1 h with h | h
    · exact (by decide : ∀ y ∈ msgKeyFind, y ≠ ',') x h
    rcases List.mem_append.1 h with h | h
    · exact (hmsg x h).2.1
    rcases List.mem_cons.1 h with h | h
    · subst h; decide
    · exact (hpost x h).1
  have hphraseT : containsSub phraseIsNotOneOf
      (pre ++ (msgKeyFind ++ (msg ++ ('"' :: post)))) = true := by
    have hmid := containsSub_of_middle (pre ++ msgKeyFind) ('"' :: post) hphrase
    rwa [List.append_assoc] at hmid
  have hmsgline : manualLineMsg (pre ++ (msgKeyFind ++ (msg ++ ('"' :: post)))) [] = msg := by
    rw [manualLineMsg]
    have hcont : containsSub msgKeyContains
        (pre ++ (msgKeyFind ++ (msg ++ ('"' :: post)))) = true := by
      refine containsSub_iff.2 ⟨pre.length, ?_⟩
      rw [List.drop_left]
      rw [show msgKeyFind ++ (msg ++ ('"' :: post)) =
          msgKeyContains ++ ('"' :: (msg ++ ('"' :: post))) from rfl]
      exact isPref_append_self _ _
    rw [if_pos hcont]
    have hfind : findSub msgKeyFind (pre ++ (msgKeyFind ++ (msg ++ ('"' :: post)))) =
        some pre.length :=
      findSub_first' (by decide) (fun x hx => (hpre x hx).1)
        (isPref_append_self msgKeyFind _)
    rw [hfind]
    simp only []
    have hdropm : (pre ++ (msgKeyFind ++ (msg ++ ('"' :: post)))).drop
        (pre.length + msgKeyFind.length) = msg ++ ('"' :: post) := by
      rw [show pre ++ (msgKeyFind ++ (msg ++ ('"' :: post))) =
          (pre ++ msgKeyFind) ++ (msg ++ ('"' :: post)) from by rw [List.append_assoc]]
      exact List.drop_left' (by simp)
    rw [hdropm]
    have hq : findSub ['"'] (msg ++ ('"' :: post)) = some msg.length :=
      findSub_first (fun x hx => (hmsg x hx).1) (by simp [isPref])
    rw [hq]
    simp only []
    exact List.take_left msg ('"' :: post)
  have hpathline : manualLinePath (pre ++ (msgKeyFind ++ (msg ++ ('"' :: post)))) [] = [] := by
    rw [manualLinePath]
    by_cases hc : containsSub pathKeyContains
        (pre ++ (msgKeyFind ++ (msg ++ ('"' :: post)))) = true
    · rw [if_pos hc, hpath]
    · rw [if_neg hc]
  have hne : ¬(msg = []) := by
    intro h0
    subst h0
    exact absurd hphrase (by decide)
  simp only [manual_extract_errors, if_pos hphraseT,
    splitOnChar_no_sep hcomma, List.foldl_cons, List.foldl_nil, hmsgline, hpathline,
    if_neg hne, if_true]

/-- Witness for C3 at a concrete heuristic-salvageable text. -/
theorem c3_witness :
    extract_json_from_string (("x: ".data) ++ (msgKeyFind ++
      (("5 is not one of valid".data) ++ ('"' :: (" end".data))))) =
      some [⟨("5 is not one of valid".data), sentinelPath⟩] :=
  c3_heuristic_fallback ("x: ".data) ("5 is not one of valid".data) (" end".data)
    (by decide) (by decide) (by decide) (by decide) (by decide)

end Calculadora
